import Mathlib

/-!
Shallow embedding of `jque` (src/jque/__init__.py), an in-memory
Mongo-flavored query engine over lists of dicts, together with proofs of
the testable properties stated in its specification.

Modelling conventions:
* `Value` models the JSON-style scalar/list values that records hold
  (`None`, `bool`, `int`, `str`, `list`).  Python's `bool` is a subclass of
  `int`, so equality and ordering coerce booleans to `0`/`1`.
* Python dicts (records, predicates, operator clauses) are modelled as
  association lists in insertion order, with first-key-wins lookup.
* Exceptions are modelled with `Except Err`: `KeyError` for a missing
  record field, `ValueError` for an unknown operator symbol, and
  `TypeError` for comparisons between incomparable types.
* The `limit` argument of `jque.query` is modelled as `Option Nat`:
  `none` is Python's `None`; note that in the sequential scanner the
  source guards the break with the *truthiness* of `limit`
  (`if limit and len(filtered_data) >= limit`), so `some 0` never breaks,
  while the parallel front-end slices with `[:limit]`, so `some 0`
  truncates to the empty list.
* The `wrap` flag only re-wraps the result list in a new `jque` object
  and never changes the result sequence; the embedding works with the
  bare result lists.
-/

namespace Jque

/-- The universe of record/comparand values: `None`, `bool`, `int`, `str`
and (possibly nested) `list` values. -/
inductive Value : Type where
  | vnull : Value
  | vbool : Bool → Value
  | vint : Int → Value
  | vstr : String → Value
  | vlist : List Value → Value

/-- Python's numeric view of `bool` (`True == 1`, `False == 0`). -/
def boolToInt (b : Bool) : Int := if b then 1 else 0

mutual
/-- Python `==` on the modelled value universe: numeric values (ints and
bools) compare numerically, strings compare as strings, lists compare
element-wise, everything else is unequal (no exception is possible). -/
def pyEq : Value → Value → Bool
  | .vnull, .vnull => true
  | .vbool a, .vbool b => a == b
  | .vbool a, .vint n => boolToInt a == n
  | .vint m, .vbool b => m == boolToInt b
  | .vint m, .vint n => m == n
  | .vstr s, .vstr t => s == t
  | .vlist xs, .vlist ys => pyEqList xs ys
  | _, _ => false

/-- Element-wise Python `==` on lists. -/
def pyEqList : List Value → List Value → Bool
  | [], [] => true
  | x :: xs, y :: ys => pyEq x y && pyEqList xs ys
  | _, _ => false
end

mutual
/-- Python `<` on the modelled value universe. `none` models the
`TypeError` raised on mutually unordered operands. -/
def pyLt : Value → Value → Option Bool
  | .vint m, .vint n => some (decide (m < n))
  | .vint m, .vbool b => some (decide (m < boolToInt b))
  | .vbool a, .vint n => some (decide (boolToInt a < n))
  | .vbool a, .vbool b => some (decide (boolToInt a < boolToInt b))
  | .vstr s, .vstr t => some (decide (s < t))
  | .vlist xs, .vlist ys => pyLtList xs ys
  | _, _ => none

/-- Python's lexicographic `<` on lists: skip equal prefixes, then compare
the first unequal pair with `<`; a strict prefix is smaller. -/
def pyLtList : List Value → List Value → Option Bool
  | [], [] => some false
  | [], _ :: _ => some true
  | _ :: _, [] => some false
  | x :: xs, y :: ys => if pyEq x y then pyLtList xs ys else pyLt x y
end

mutual
/-- Python `<=` on the modelled value universe; `none` is `TypeError`. -/
def pyLe : Value → Value → Option Bool
  | .vint m, .vint n => some (decide (m ≤ n))
  | .vint m, .vbool b => some (decide (m ≤ boolToInt b))
  | .vbool a, .vint n => some (decide (boolToInt a ≤ n))
  | .vbool a, .vbool b => some (decide (boolToInt a ≤ boolToInt b))
  | .vstr s, .vstr t => some (decide (s < t) || s == t)
  | .vlist xs, .vlist ys => pyLeList xs ys
  | _, _ => none

/-- Python's lexicographic `<=` on lists. -/
def pyLeList : List Value → List Value → Option Bool
  | [], _ => some true
  | _ :: _, [] => some false
  | x :: xs, y :: ys => if pyEq x y then pyLeList xs ys else pyLt x y
end

/-- Python `>`: mirror image of `<`. -/
def pyGt (x y : Value) : Option Bool := pyLt y x

/-- Python `>=`: mirror image of `<=`. -/
def pyGe (x y : Value) : Option Bool := pyLe y x

/-- Substring test on the underlying character lists (Python `t in s` for
strings). -/
def strContains (t s : String) : Bool :=
  (List.range (s.data.length + 1)).any fun i => t.data.isPrefixOf (s.data.drop i)

/-- Python `x in y`: membership by `==` when `y` is a list, substring
test when both are strings; `none` models the `TypeError` raised when `y`
is not a container (or a string is probed with a non-string). -/
def pyIn : Value → Value → Option Bool
  | x, .vlist ys => some (ys.any fun e => pyEq x e)
  | .vstr t, .vstr s => some (strContains t s)
  | _, _ => none

/-- The operator table `_OPERATORS`: a fixed association list from
operator symbol to binary comparison, exactly the eight entries of the
source dict. -/
def _OPERATORS : List (String × (Value → Value → Option Bool)) :=
  [("$eq",  fun x y => some (pyEq x y)),
   ("$neq", fun x y => some (!pyEq x y)),
   ("$lt",  pyLt),
   ("$lte", pyLe),
   ("$gt",  pyGt),
   ("$gte", pyGe),
   ("$in",  pyIn),
   ("$nin", fun x y => Option.map Bool.not (pyIn x y))]

/-- Membership/lookup in the operator table (`op in _OPERATORS` and
`_OPERATORS[op]`). -/
def opLookup (op : String) : Option (Value → Value → Option Bool) :=
  _OPERATORS.lookup op

/-- A predicate field's qualifier: a `dict` operator clause, a callable
test function, or (anything else) a literal compared with `==`. -/
inductive Qual : Type where
  | lit : Value → Qual
  | clause : List (String × Value) → Qual
  | func : (Value → Bool) → Qual

/-- A record: a dict from field name to value, in insertion order. -/
abbrev Record := List (String × Value)

/-- A predicate: a dict from field name to qualifier, in insertion order. -/
abbrev Pred := List (String × Qual)

/-- `record[key]` without the exception: `none` when the key is absent. -/
def dictGet (r : Record) (k : String) : Option Value := r.lookup k

/-- The exceptions the engine can raise: `KeyError` (missing record
field), `ValueError` (unknown operator symbol), `TypeError` (incomparable
operands). -/
inductive Err : Type where
  | keyError : String → Err
  | valueError : String → Err
  | typeError : Err
deriving DecidableEq

/-- The inner loop of `_check_record` over one dict qualifier: for each
`(op, val)` entry in order, raise `ValueError` if `op` is not in the
operator table, then look up `record[key]` (raising `KeyError` if the
field is absent), apply the operator (raising `TypeError` on incomparable
operands), and short-circuit to `false` on the first failing operator. -/
def checkClause (record : Record) (key : String) : List (String × Value) → Except Err Bool
  | [] => .ok true
  | (op, val) :: rest =>
    match opLookup op with
    | none => .error (.valueError op)
    | some f =>
      match dictGet record key with
      | none => .error (.keyError key)
      | some rv =>
        match f rv val with
        | none => .error .typeError
        | some true => checkClause record key rest
        | some false => .ok false

/-- `_check_record(qr, record)`: evaluate each predicate field in order,
dispatching on the qualifier's shape (dict clause / callable / literal),
returning `false` on the first failing field and `true` if every field
passes. -/
def _check_record (qr : Pred) (record : Record) : Except Err Bool :=
  match qr with
  | [] => .ok true
  | (key, .clause ops) :: rest =>
    match checkClause record key ops with
    | .error e => .error e
    | .ok false => .ok false
    | .ok true => _check_record rest record
  | (key, .func f) :: rest =>
    match dictGet record key with
    | none => .error (.keyError key)
    | some rv => if f rv then _check_record rest record else .ok false
  | (key, .lit v) :: rest =>
    match dictGet record key with
    | none => .error (.keyError key)
    | some rv => if pyEq rv v then _check_record rest record else .ok false

/-- `_parallel_query(qr, data)`: the boolean result vector, entry `i`
being `_check_record(qr, data[i])`; the first raised exception aborts the
whole evaluation. -/
def _parallel_query (qr : Pred) : List Record → Except Err (List Bool)
  | [] => .ok []
  | r :: rest =>
    match _check_record qr r with
    | .error e => .error e
    | .ok b =>
      match _parallel_query qr rest with
      | .error e => .error e
      | .ok bs => .ok (b :: bs)

/-- The break condition of the sequential scanner,
`if limit and len(filtered_data) >= limit`: Python's `None` and `0` are
both falsy, so only a nonzero limit ever breaks. -/
def limitHit (limit : Option Nat) (n : Nat) : Bool :=
  match limit with
  | none => false
  | some l => decide (l ≠ 0) && decide (l ≤ n)

/-- The sequential scan loop of `jque.query`: append each matching record
to the accumulator and break as soon as the (truthy) limit is reached. -/
def querySeq (qr : Pred) (limit : Option Nat) (acc : List Record) : List Record → Except Err (List Record)
  | [] => .ok acc
  | record :: rest =>
    match _check_record qr record with
    | .error e => .error e
    | .ok true =>
      let acc2 := acc ++ [record]
      if limitHit limit acc2.length then .ok acc2 else querySeq qr limit acc2 rest
    | .ok false => querySeq qr limit acc rest

/-- `jque.query(qr, limit=limit)` in the default sequential mode (the
`wrap` flag only re-wraps the same list and is dropped). -/
def query (qr : Pred) (data : List Record) (limit : Option Nat) : Except Err (List Record) :=
  querySeq qr limit [] data

/-- Python's slice `xs[:limit]`: everything for `None`, first `k`
elements for an integer limit. -/
def pySlice (limit : Option Nat) (xs : List Record) : List Record :=
  match limit with
  | none => xs
  | some k => xs.take k

/-- `jque.query(qr, limit=limit)` in parallel mode: compute the boolean
vector with `_parallel_query`, then filter
`[d for d, r in zip(data, results) if r][:limit]`. -/
def queryParallel (qr : Pred) (data : List Record) (limit : Option Nat) : Except Err (List Record) :=
  match _parallel_query qr data with
  | .error e => .error e
  | .ok results =>
    .ok (pySlice limit (((data.zip results).filter fun p => p.2).map fun p => p.1))

/-- Running the matcher over every record and keeping the matches, with
the first exception aborting: the sequential scan with no limit computes
exactly this filter. -/
def filterM (qr : Pred) : List Record → Except Err (List Record)
  | [] => .ok []
  | r :: rest =>
    match _check_record qr r with
    | .error e => .error e
    | .ok b =>
      match filterM qr rest with
      | .error e => .error e
      | .ok out => .ok (if b then r :: out else out)

/-! Concrete records and predicates from the specification's test
scenario (§8), used to witness the claims on explicit inputs. -/

/-- Record `{"id": "A", "age": 42, "planet": "earth"}`. -/
def recA : Record := [("id", .vstr "A"), ("age", .vint 42), ("planet", .vstr "earth")]

/-- Record `{"id": "B", "age": 19, "planet": "earth"}`. -/
def recB : Record := [("id", .vstr "B"), ("age", .vint 19), ("planet", .vstr "earth")]

/-- Record `{"id": "C", "age": 240, "planet": "mars"}`. -/
def recC : Record := [("id", .vstr "C"), ("age", .vint 240), ("planet", .vstr "mars")]

/-- Predicate `{"planet": "earth"}`. -/
def predEarth : Pred := [("planet", Qual.lit (Value.vstr "earth"))]

/-- Predicate `{"age": {"$lte": 20, "$gte": 10}}`. -/
def predAge : Pred := [("age", Qual.clause [("$lte", Value.vint 20), ("$gte", Value.vint 10)])]

/-- A sample test function: true on integer values below 100. -/
def isYoung : Value → Bool := fun v =>
  match v with
  | .vint n => decide (n < 100)
  | _ => false

/-! Helper lemmas about the scan loop, shared by the claim proofs. -/

/-- A successful sequential scan extends its accumulator with a sublist
of the scanned data. -/
theorem querySeq_ok_structure (qr : Pred) (limit : Option Nat) :
    ∀ (data acc out : List Record),
      querySeq qr limit acc data = .ok out →
      ∃ tail, out = acc ++ tail ∧ List.Sublist tail data := by
  intro data
  induction data with
  | nil =>
    intro acc out h
    simp only [querySeq, Except.ok.injEq] at h
    exact ⟨[], by simp [h], List.nil_sublist []⟩
  | cons r rest ih =>
    intro acc out h
    simp only [querySeq] at h
    cases hc : _check_record qr r with
    | error e => rw [hc] at h; exact Except.noConfusion h
    | ok b =>
      rw [hc] at h
      cases b with
      | false =>
        obtain ⟨tail, rfl, hsub⟩ := ih acc out h
        exact ⟨tail, rfl, hsub.cons r⟩
      | true =>
        by_cases hl : limitHit limit (acc ++ [r]).length
        · rw [if_pos hl] at h
          injection h with h2
          exact ⟨[r], h2.symm, List.Sublist.cons₂ r (List.nil_sublist rest)⟩
        · rw [if_neg hl] at h
          obtain ⟨t, rfl, hsub⟩ := ih (acc ++ [r]) out h
          exact ⟨r :: t, by simp, List.Sublist.cons₂ r hsub⟩

/-- With no limit, the sequential scan is the match-and-filter pass
appended to the accumulator. -/
theorem querySeq_none_eq_filterM (qr : Pred) :
    ∀ (data acc : List Record),
      querySeq qr none acc data =
        match filterM qr data with
        | .error e => .error e
        | .ok l => .ok (acc ++ l) := by
  intro data
  induction data with
  | nil => intro acc; simp [querySeq, filterM]
  | cons r rest ih =>
    intro acc
    simp only [querySeq, filterM]
    cases hc : _check_record qr r with
    | error e => rfl
    | ok b =>
      cases b with
      | true =>
        have : limitHit none (acc ++ [r]).length = false := rfl
        rw [this, if_neg (by simp), ih (acc ++ [r])]
        cases hf : filterM qr rest with
        | error e => rfl
        | ok l => simp
      | false =>
        rw [ih acc]
        cases hf : filterM qr rest with
        | error e => rfl
        | ok l => simp

/-- `jque.query` with no limit is exactly the match-and-filter pass. -/
theorem query_none_eq_filterM (qr : Pred) (R : List Record) :
    query qr R none = filterM qr R := by
  rw [query, querySeq_none_eq_filterM]
  cases filterM qr R <;> simp

/-- Evaluating an appended predicate conjoins: the second predicate's
fields are evaluated exactly when every field of the first passes. -/
theorem check_record_append (P1 P2 : Pred) (r : Record) :
    _check_record (P1 ++ P2) r =
      match _check_record P1 r with
      | .ok true => _check_record P2 r
      | .ok false => .ok false
      | .error e => .error e := by
  induction P1 with
  | nil => simp [_check_record]
  | cons p P1' ih =>
    obtain ⟨k, q⟩ := p
    cases q with
    | lit v =>
      simp only [List.cons_append, _check_record]
      cases dictGet r k with
      | none => rfl
      | some rv =>
        cases hpe : pyEq rv v with
        | true => simpa [hpe] using ih
        | false => simp [hpe]
    | clause ops =>
      simp only [List.cons_append, _check_record]
      cases hc : checkClause r k ops with
      | error e => rfl
      | ok b =>
        cases b with
        | true => exact ih
        | false => rfl
    | func f =>
      simp only [List.cons_append, _check_record]
      cases dictGet r k with
      | none => rfl
      | some rv =>
        cases hf : f rv with
        | true => simpa [hf] using ih
        | false => simp [hf]

/-- The filter pass of a conjoined (appended) predicate factors through
the two filter passes run one after the other. -/
theorem filterM_append (P1 P2 : Pred) :
    ∀ (R mid out : List Record),
      filterM P1 R = .ok mid → filterM P2 mid = .ok out →
      filterM (P1 ++ P2) R = .ok out := by
  intro R
  induction R with
  | nil =>
    intro mid out h1 h2
    simp only [filterM, Except.ok.injEq] at h1
    subst h1
    simp only [filterM, Except.ok.injEq] at h2
    subst h2
    simp [filterM]
  | cons r rest ih =>
    intro mid out h1 h2
    simp only [filterM] at h1 ⊢
    rw [check_record_append]
    revert h1
    cases hc1 : _check_record P1 r with
    | error e => intro h1; exact Except.noConfusion h1
    | ok b1 =>
      cases hf1 : filterM P1 rest with
      | error e => intro h1; exact Except.noConfusion h1
      | ok mid' =>
        intro h1
        replace h1 : (if b1 = true then r :: mid' else mid') = mid := by
          injection h1
        cases b1 with
        | false =>
          replace h1 : mid' = mid := by simpa using h1
          subst h1
          simp [ih mid' out hf1 h2]
        | true =>
          replace h1 : r :: mid' = mid := by simpa using h1
          subst h1
          simp only [filterM] at h2
          revert h2
          cases hc2 : _check_record P2 r with
          | error e => intro h2; exact Except.noConfusion h2
          | ok b2 =>
            cases hf2 : filterM P2 mid' with
            | error e => intro h2; exact Except.noConfusion h2
            | ok out' =>
              intro h2
              replace h2 : (if b2 = true then r :: out' else out') = out := by
                injection h2
              subst h2
              have hrec := ih mid' out' hf1 hf2
              cases b2 <;> simp [hrec]


/-- A limited sequential scan truncates the unlimited scan: with a
truthy limit `k` and the accumulator still below `k`, the `some k` run
returns the unlimited result cut down to `k` elements. -/
theorem querySeq_limit_take (qr : Pred) (k : Nat) :
    ∀ (data acc tail : List Record), acc.length < k →
      querySeq qr none acc data = .ok (acc ++ tail) →
      querySeq qr (some k) acc data = .ok (acc ++ tail.take (k - acc.length)) := by
  intro data
  induction data with
  | nil =>
    intro acc tail _ h
    simp only [querySeq, Except.ok.injEq] at h ⊢
    have hlen := congrArg List.length h
    simp at hlen
    subst hlen
    simp
  | cons r rest ih =>
    intro acc tail hlt h
    simp only [querySeq] at h ⊢
    revert h
    cases hc : _check_record qr r with
    | error e => intro h; exact Except.noConfusion h
    | ok b =>
      intro h
      cases b with
      | false => exact ih acc tail hlt h
      | true =>
        replace h : querySeq qr none (acc ++ [r]) rest = Except.ok (acc ++ tail) := h
        obtain ⟨t, ht, hsub⟩ := querySeq_ok_structure qr none rest (acc ++ [r]) (acc ++ tail) h
        have htail : tail = r :: t := by
          have h2 : acc ++ tail = acc ++ (r :: t) := by simpa [List.append_assoc] using ht
          exact List.append_cancel_left h2
        subst htail
        show (if limitHit (some k) (acc ++ [r]).length = true then Except.ok (acc ++ [r])
              else querySeq qr (some k) (acc ++ [r]) rest) =
            Except.ok (acc ++ List.take (k - acc.length) (r :: t))
        have hlen : (acc ++ [r]).length = acc.length + 1 := by simp
        by_cases hk : k ≤ acc.length + 1
        · have hhit : limitHit (some k) (acc ++ [r]).length = true := by
            simp only [limitHit, hlen, Bool.and_eq_true, decide_eq_true_eq]
            omega
          rw [if_pos hhit]
          have h1k : k - acc.length = 1 := by omega
          rw [h1k]
          simp
        · have hmiss : limitHit (some k) (acc.length + 1) = false := by
            simp only [limitHit]
            simp [hk]
          rw [if_neg (by simp [hmiss])]
          have h3 : querySeq qr none (acc ++ [r]) rest = Except.ok ((acc ++ [r]) ++ t) := by
            simpa [List.append_assoc] using h
          have h2 := ih (acc ++ [r]) t (by simp only [hlen]; omega) h3
          rw [h2]
          obtain ⟨m, hm⟩ : ∃ m, k - acc.length = m + 1 := ⟨k - acc.length - 1, by omega⟩
          have hm2 : k - (acc ++ [r]).length = m := by simp only [hlen]; omega
          rw [hm, hm2, List.take_succ_cons]
          simp

/-- The boolean vector of a successful parallel evaluation, zipped back
against the records and filtered, is exactly the sequential
match-and-filter pass. -/
theorem parallel_query_filterM (qr : Pred) :
    ∀ (R : List Record) (bs : List Bool),
      _parallel_query qr R = .ok bs →
      filterM qr R = .ok (((R.zip bs).filter fun p => p.2).map fun p => p.1) := by
  intro R
  induction R with
  | nil =>
    intro bs h
    simp only [_parallel_query, Except.ok.injEq] at h
    subst h
    simp [filterM]
  | cons r rest ih =>
    intro bs h
    simp only [_parallel_query] at h
    revert h
    cases hc : _check_record qr r with
    | error e => intro h; exact Except.noConfusion h
    | ok b =>
      cases hp : _parallel_query qr rest with
      | error e => intro h; exact Except.noConfusion h
      | ok bs2 =>
        intro h
        replace h : b :: bs2 = bs := by injection h
        subst h
        simp only [filterM, hc, ih bs2 hp]
        cases b <;> simp

/-! The claims. -/

/-- C1: the operator table implements the documented comparison
semantics.  For every record holding a value at the probed field: the
literal qualifier `{"age": 42}` evaluates to whether the value equals
`42` (Python `==`); the clause `{"age": {"$gte": 10, "$lte": 20}}`
evaluates to the conjunction `10 <= age && age <= 20`; the clause
`{"planet": {"$in": ["earth","mars"]}}` evaluates to membership of the
value in the list. -/
theorem claim1_operator_table (r : Record) (v : Value) (a : Int) :
    (dictGet r "age" = some v →
      _check_record [("age", Qual.lit (Value.vint 42))] r = .ok (pyEq v (Value.vint 42))) ∧
    (dictGet r "age" = some (Value.vint a) →
      _check_record [("age", Qual.clause [("$gte", Value.vint 10), ("$lte", Value.vint 20)])] r =
        .ok (decide ((10:Int) ≤ a) && decide (a ≤ (20:Int)))) ∧
    (dictGet r "planet" = some v →
      _check_record
          [("planet", Qual.clause [("$in", Value.vlist [Value.vstr "earth", Value.vstr "mars"])])] r =
        .ok ([Value.vstr "earth", Value.vstr "mars"].any fun e => pyEq v e)) := by
  refine ⟨?_, ?_, ?_⟩
  · intro hv
    simp only [_check_record, hv]
    cases hpe : pyEq v (Value.vint 42) <;> simp [hpe, _check_record]
  · intro hv
    have hgte : opLookup "$gte" = some pyGe := rfl
    have hlte : opLookup "$lte" = some pyLe := rfl
    have e1 : pyGe (Value.vint a) (Value.vint 10) = some (decide ((10:Int) ≤ a)) := rfl
    have e2 : pyLe (Value.vint a) (Value.vint 20) = some (decide (a ≤ (20:Int))) := rfl
    simp only [_check_record, checkClause, hgte, hlte, hv, e1, e2]
    cases h10 : decide ((10:Int) ≤ a) with
    | false => simp [h10]
    | true =>
      cases h20 : decide (a ≤ (20:Int)) with
      | false => simp [h20]
      | true => simp [h20, _check_record]
  · intro hv
    have hin : opLookup "$in" = some pyIn := rfl
    have e3 : pyIn v (Value.vlist [Value.vstr "earth", Value.vstr "mars"]) =
        some ([Value.vstr "earth", Value.vstr "mars"].any fun e => pyEq v e) := by
      cases v <;> rfl
    simp only [_check_record, checkClause, hin, hv, e3]
    cases ha : [Value.vstr "earth", Value.vstr "mars"].any (fun e => pyEq v e) <;>
      simp [ha, _check_record]

/-- C1 witness: the three operator forms evaluated on the specification's
concrete records. -/
theorem claim1_witness :
    _check_record [("age", Qual.lit (Value.vint 42))] recA = .ok true ∧
    _check_record [("age", Qual.clause [("$gte", Value.vint 10), ("$lte", Value.vint 20)])] recB
        = .ok true ∧
    _check_record
        [("planet", Qual.clause [("$in", Value.vlist [Value.vstr "earth", Value.vstr "mars"])])] recC
        = .ok true := by
  refine ⟨?_, ?_, ?_⟩
  · exact (claim1_operator_table recA (Value.vint 42) 0).1 rfl
  · exact (claim1_operator_table recB (Value.vint 42) 19).2.1 rfl
  · exact (claim1_operator_table recC (Value.vstr "mars") 0).2.2 rfl

/-- C2 counterexample: with `limit = 0` the claimed equation
`len(query(R, P, limit=k)) = min(k, len(query(R, P)))` fails: `0` is
falsy in the source's `if limit and len(filtered_data) >= limit`, so the
scan never breaks and every match is returned (length 1, not
`min 0 1 = 0`). -/
theorem claim2_counterexample :
    query ([] : Pred) [recA] (some 0) = .ok [recA] ∧
    query ([] : Pred) [recA] none = .ok [recA] ∧
    ([recA] : List Record).length ≠ min 0 ([recA] : List Record).length :=
  ⟨rfl, rfl, by decide⟩

/-- C2 (amended to truthy limits `k ≥ 1`): in sequential mode the limited
query returns exactly the first `k` matches of the unlimited query, in
original order, so its length is `min k (len (query R P))`. -/
theorem claim2_sequential_limit (qr : Pred) (R : List Record) (k : Nat) (full : List Record)
    (hk : 1 ≤ k) (hfull : query qr R none = .ok full) :
    query qr R (some k) = .ok (full.take k) ∧
    (full.take k).length = min k full.length := by
  constructor
  · have h0 : querySeq qr none [] R = .ok ([] ++ full) := by
      simpa [query] using hfull
    have h := querySeq_limit_take qr k R [] full (by simp only [List.length_nil]; omega) h0
    simpa [query] using h
  · simp [List.length_take]

/-- C2 witness: `{"planet": "earth"}` with `limit=1` on the three-record
scenario returns the first match only. -/
theorem claim2_witness :
    query predEarth [recA, recB, recC] (some 1) = .ok ([recA, recB].take 1) ∧
    ([recA, recB].take 1).length = min 1 ([recA, recB] : List Record).length :=
  claim2_sequential_limit predEarth [recA, recB, recC] 1 [recA, recB] (Nat.le_refl 1) rfl

/-- C3 counterexample: a predicate containing an unknown operator does
not raise for every record — an earlier failing field short-circuits to a
silent non-match before the unknown operator is reached. -/
theorem claim3_counterexample :
    opLookup "$bogus" = none ∧
    _check_record [("a", Qual.lit (Value.vint 0)), ("b", Qual.clause [("$bogus", Value.vint 1)])]
        [("a", Value.vint 1), ("b", Value.vint 2)] = .ok false :=
  ⟨rfl, rfl⟩

/-- C3 (amended): when the unknown-operator clause is actually reached —
here, the predicate's first field carries an operator clause whose first
operator is absent from the table — the matcher raises the
`UnknownOperator` error (`ValueError`) for every record, even a record
lacking the field, and the error propagates and aborts the whole
query. -/
theorem claim3_unknown_operator (f op : String) (v : Value) (ops : List (String × Value))
    (rest : Pred) (r : Record) (data : List Record) (limit : Option Nat)
    (hop : opLookup op = none) :
    _check_record ((f, Qual.clause ((op, v) :: ops)) :: rest) r = .error (.valueError op) ∧
    query ((f, Qual.clause ((op, v) :: ops)) :: rest) (r :: data) limit
        = .error (.valueError op) := by
  have hchk : _check_record ((f, Qual.clause ((op, v) :: ops)) :: rest) r
      = .error (.valueError op) := by
    simp [_check_record, checkClause, hop]
  refine ⟨hchk, ?_⟩
  simp [query, querySeq, hchk]

/-- C3 witness: `{"age": {"$bogus": 1}}` raises `ValueError` on the
concrete scenario records. -/
theorem claim3_witness :
    _check_record [("age", Qual.clause [("$bogus", Value.vint 1)])] recA
        = .error (.valueError "$bogus") ∧
    query [("age", Qual.clause [("$bogus", Value.vint 1)])] [recA, recB] none
        = .error (.valueError "$bogus") :=
  claim3_unknown_operator "age" "$bogus" (Value.vint 1) [] [] recA [recB] none rfl

/-- C4: parallel-mode vector alignment: a successful `_parallel_query`
returns one boolean per record, and entry `i` is exactly the sequential
record matcher's verdict on the `i`-th record. -/
theorem claim4_vector_alignment (qr : Pred) :
    ∀ (R : List Record) (bs : List Bool),
      _parallel_query qr R = .ok bs →
      bs.length = R.length ∧
        ∀ (i : Nat) (h1 : i < R.length) (h2 : i < bs.length),
          _check_record qr (R.get ⟨i, h1⟩) = .ok (bs.get ⟨i, h2⟩) := by
  intro R
  induction R with
  | nil =>
    intro bs h
    simp only [_parallel_query, Except.ok.injEq] at h
    subst h
    exact ⟨rfl, fun i h1 _ => absurd h1 (by simp)⟩
  | cons r rest ih =>
    intro bs h
    simp only [_parallel_query] at h
    revert h
    cases hc : _check_record qr r with
    | error e => intro h; exact Except.noConfusion h
    | ok b =>
      cases hp : _parallel_query qr rest with
      | error e => intro h; exact Except.noConfusion h
      | ok bs2 =>
        intro h
        replace h : b :: bs2 = bs := by injection h
        subst h
        obtain ⟨hlen, hget⟩ := ih bs2 hp
        refine ⟨by simp [hlen], ?_⟩
        intro i h1 h2
        cases i with
        | zero => simpa using hc
        | succ n =>
          have hrec := hget n (by simpa using h1) (by simpa using h2)
          simpa using hrec

/-- C4 witness: on the scenario records with `{"planet": "earth"}` the
vector is `[true, true, false]` and entry 2 matches the sequential
verdict on record C. -/
theorem claim4_witness : _check_record predEarth recC = .ok false := by
  have h := (claim4_vector_alignment predEarth [recA, recB, recC] [true, true, false] rfl).2
    2 (by decide) (by decide)
  simpa using h

/-- C5 counterexample: with `limit = 0` the two modes disagree on the
same input — the parallel front-end's slice `[:0]` returns the empty
list while the sequential scanner treats `0` as falsy and returns every
match. -/
theorem claim5_counterexample :
    queryParallel ([] : Pred) [recA] (some 0) = .ok [] ∧
    query ([] : Pred) [recA] (some 0) = .ok [recA] ∧
    ([] : List Record) ≠ [recA] :=
  ⟨rfl, rfl, fun h => List.noConfusion h⟩

/-- C5 (amended to limits that are `None` or at least 1): whenever both
modes succeed, a parallel-mode query returns the same result sequence as
a sequential-mode query with the same arguments. -/
theorem claim5_mode_equivalence (qr : Pred) (R : List Record) (limit : Option Nat)
    (xs ys : List Record)
    (hlim : limit = none ∨ ∃ k, limit = some k ∧ 1 ≤ k)
    (hp : queryParallel qr R limit = .ok xs)
    (hs : query qr R limit = .ok ys) : xs = ys := by
  revert hp
  unfold queryParallel
  cases hq : _parallel_query qr R with
  | error e => intro hp; exact Except.noConfusion hp
  | ok bs =>
    intro hp
    replace hp : pySlice limit (((R.zip bs).filter fun p => p.2).map fun p => p.1) = xs := by
      injection hp
    have hfil := parallel_query_filterM qr R bs hq
    have hnone : query qr R none = .ok (((R.zip bs).filter fun p => p.2).map fun p => p.1) := by
      rw [query_none_eq_filterM]
      exact hfil
    rcases hlim with rfl | ⟨k, rfl, hk1⟩
    · rw [hnone] at hs
      replace hs : ((R.zip bs).filter fun p => p.2).map (fun p => p.1) = ys := by injection hs
      rw [← hp, ← hs]
      rfl
    · have h0 : querySeq qr none [] R
          = .ok ([] ++ ((R.zip bs).filter fun p => p.2).map fun p => p.1) := by
        simpa [query] using hnone
      have htake := querySeq_limit_take qr k R []
        (((R.zip bs).filter fun p => p.2).map fun p => p.1)
        (by simp only [List.length_nil]; omega) h0
      have hseq : query qr R (some k)
          = .ok ((((R.zip bs).filter fun p => p.2).map fun p => p.1).take k) := by
        simpa [query] using htake
      rw [hseq] at hs
      replace hs : (((R.zip bs).filter fun p => p.2).map (fun p => p.1)).take k = ys := by
        injection hs
      rw [← hp, ← hs]
      rfl

/-- C5 witness: both modes on the scenario records with
`{"planet": "earth"}` and `limit=1` return `[recA]`. -/
theorem claim5_witness :
    queryParallel predEarth [recA, recB, recC] (some 1) = .ok [recA] ∧
    query predEarth [recA, recB, recC] (some 1) = .ok [recA] ∧
    ([recA] : List Record) = [recA] :=
  ⟨rfl, rfl,
    claim5_mode_equivalence predEarth [recA, recB, recC] (some 1) [recA] [recA]
      (Or.inr ⟨1, rfl, Nat.le_refl 1⟩) rfl rfl⟩

/-- C6 counterexample: a record lacking a referenced field is *not*
always an error — an earlier failing field short-circuits to a silent
non-match before the missing field is ever accessed. -/
theorem claim6_counterexample :
    dictGet [("a", Value.vint 0)] "b" = none ∧
    _check_record [("a", Qual.lit (Value.vint 1)), ("b", Qual.lit (Value.vint 2))]
        [("a", Value.vint 0)] = .ok false :=
  ⟨rfl, rfl⟩

/-- C6 (amended): when the matcher actually accesses the missing field's
value — the qualifier being a literal, a test function, or an operator
clause whose first operator is known (here placed at the predicate's
front, where nothing can fail earlier) — it raises the `MissingField`
lookup error (`KeyError`), which propagates and aborts the whole
query. -/
theorem claim6_missing_field (f : String) (q : Qual) (rest : Pred) (r : Record)
    (data : List Record) (limit : Option Nat)
    (hmiss : dictGet r f = none)
    (hq : (∃ v, q = Qual.lit v) ∨ (∃ g, q = Qual.func g) ∨
          ∃ op v ops fop, q = Qual.clause ((op, v) :: ops) ∧ opLookup op = some fop) :
    _check_record ((f, q) :: rest) r = .error (.keyError f) ∧
    query ((f, q) :: rest) (r :: data) limit = .error (.keyError f) := by
  have hchk : _check_record ((f, q) :: rest) r = .error (.keyError f) := by
    rcases hq with ⟨v, rfl⟩ | ⟨g, rfl⟩ | ⟨op, v, ops, fop, rfl, hop⟩
    · simp [_check_record, hmiss]
    · simp [_check_record, hmiss]
    · simp [_check_record, checkClause, hop, hmiss]
  exact ⟨hchk, by simp [query, querySeq, hchk]⟩

/-- C6 witness: `{"b": 2}` against the record `{"a": 0}` raises
`KeyError` and aborts the query. -/
theorem claim6_witness :
    _check_record [("b", Qual.lit (Value.vint 2))] [("a", Value.vint 0)]
        = .error (.keyError "b") ∧
    query [("b", Qual.lit (Value.vint 2))] [[("a", Value.vint 0)]] none
        = .error (.keyError "b") :=
  claim6_missing_field "b" (Qual.lit (Value.vint 2)) [] [("a", Value.vint 0)] [] none rfl
    (Or.inl ⟨Value.vint 2, rfl⟩)

/-- C7: every successful query result is a sublist of the input records:
each returned record occurs in the input, in the original relative
order. -/
theorem claim7_order_subset (qr : Pred) (R : List Record) (limit : Option Nat)
    (out : List Record) (h : query qr R limit = .ok out) :
    List.Sublist out R := by
  obtain ⟨tail, rfl, hsub⟩ := querySeq_ok_structure qr limit R [] out h
  simpa using hsub

/-- C7 witness: `{"planet": "earth"}` on the scenario records returns
`[recA, recB]`, a sublist of the input. -/
theorem claim7_witness :
    query predEarth [recA, recB, recC] none = .ok [recA, recB] ∧
    List.Sublist [recA, recB] [recA, recB, recC] :=
  ⟨rfl, claim7_order_subset predEarth [recA, recB, recC] none [recA, recB] rfl⟩

/-- C8: querying in two passes equals one pass with the conjunction
(concatenation) of the clauses: if `query R P1` returns `mid` and
`query mid P2` returns `out`, then `query R (P1 ++ P2)` returns `out`
(the `wrap=true` re-wrapping carries the same list; stated for
field-disjoint predicates as the claim does). -/
theorem claim8_two_pass (P1 P2 : Pred) (R mid out : List Record)
    (hdisj : ∀ f ∈ P1.map Prod.fst, f ∉ P2.map Prod.fst)
    (h1 : query P1 R none = .ok mid)
    (h2 : query P2 mid none = .ok out) :
    query (P1 ++ P2) R none = .ok out := by
  rw [query_none_eq_filterM] at h1 h2 ⊢
  exact filterM_append P1 P2 R mid out h1 h2

/-- C8 witness: filtering by planet and then by age range equals the
single conjoined query from the specification's scenario. -/
theorem claim8_witness :
    query (predEarth ++ predAge) [recA, recB, recC] none = .ok [recB] :=
  claim8_two_pass predEarth predAge [recA, recB, recC] [recA, recB] [recB]
    (by decide) rfl rfl

/-- C9: a callable qualifier is invoked with the record's value at that
field, and — all other fields passing — the record matches exactly when
the function returns true. -/
theorem claim9_test_function (P1 P2 : Pred) (f : String) (g : Value → Bool)
    (r : Record) (v : Value)
    (hv : dictGet r f = some v)
    (h1 : _check_record P1 r = .ok true)
    (h2 : _check_record P2 r = .ok true) :
    _check_record (P1 ++ (f, Qual.func g) :: P2) r = .ok (g v) := by
  rw [check_record_append, h1]
  show _check_record ((f, Qual.func g) :: P2) r = .ok (g v)
  simp only [_check_record, hv]
  cases hg : g v with
  | true => simpa [hg] using h2
  | false => simp [hg]

/-- C9 witness: the test function `age < 100` applied to record B. -/
theorem claim9_witness : _check_record [("age", Qual.func isYoung)] recB = .ok true := by
  have h := claim9_test_function [] [] "age" isYoung recB (Value.vint 19) rfl rfl rfl
  exact h

/-- C10: an empty operator clause `{}` is vacuously satisfied: the field
is passed without the record's value ever being accessed, so
`{"f": {}}` matches every record — even one lacking the field — and
never raises. -/
theorem claim10_empty_clause (f : String) (rest : Pred) (r : Record) :
    _check_record ((f, Qual.clause []) :: rest) r = _check_record rest r ∧
    _check_record [(f, Qual.clause [])] r = .ok true := by
  constructor
  · simp [_check_record, checkClause]
  · simp [_check_record, checkClause]

end Jque
